import Mathlib

/-!
Shallow embedding of the paged-memory simulator in `trab2_SO.py`
(classes `Process` and `MemoryManager` with operations `create_process`,
`view_memory` and `view_page_table`), together with proofs of the
invariants and functional-correctness properties stated about it.

Python bytearrays become `List Nat` (each element a byte value), the
`free_frames` Python list becomes a `List Nat` popped from its end, the
`processes` dict becomes an association list in insertion order, and the
pseudo-random logical memory is modelled by an explicit byte oracle
`rnd : Nat → Nat` (the source draws `random.getrandbits(8)` per byte).
-/

namespace Trab2SO

/-- A process: caller pid, requested byte size, its page table as an
association list from logical page index to physical frame index (built
in insertion order, mirroring the Python dict), and its logical memory
bytes. Mirrors class `Process` in the source. -/
structure Process where
  pid : Int
  size : Int
  page_table : List (Nat × Nat)
  logical_memory : List Nat
deriving Repr, DecidableEq

/-- The logical memory of a fresh process: `size` bytes drawn from the
byte oracle, each reduced mod 256 as `random.getrandbits(8)` yields a
byte. Mirrors `Process.__init__`. -/
def mkLogicalMemory (size : Nat) (rnd : Nat → Nat) : List Nat :=
  (List.range size).map (fun i => rnd i % 256)

/-- The whole manager state. Mirrors `MemoryManager.__init__`'s fields. -/
structure MemoryManager where
  physical_size : Nat
  page_size : Nat
  max_process_size : Int
  total_frames : Nat
  physical_memory : List Nat
  free_frames : List Nat
  processes : List (Int × Process)
deriving Repr, DecidableEq

/-- `MemoryManager.__init__`: `total_frames = physical_size // page_size`,
zeroed physical memory, and `free_frames = list(range(total_frames - 1, -1, -1))`,
i.e. the frame indices in descending order. -/
def MemoryManager.init (physical_size page_size : Nat) (max_proc_size : Int) :
    MemoryManager :=
  { physical_size := physical_size
    page_size := page_size
    max_process_size := max_proc_size
    total_frames := physical_size / page_size
    physical_memory := List.replicate physical_size 0
    free_frames := (List.range (physical_size / page_size)).reverse
    processes := [] }

/-- Python list `pop()`: remove and return the LAST element. -/
def popLast (l : List Nat) : Option (Nat × List Nat) :=
  match l.getLast? with
  | none => none
  | some x => some (x, l.dropLast)

/-- Python bytearray slice assignment `mem[start : start + len(data)] = data`
(the slice bounds clamp to the buffer like Python's). -/
def writeBytes (mem : List Nat) (start : Nat) (data : List Nat) : List Nat :=
  mem.take start ++ data ++ mem.drop (start + data.length)

/-- The logical bytes of page `pg` of a process of size `sz` with logical
memory `lm`: the slice `lm[pg*ps : min(pg*ps + ps, sz)]`. -/
def pageData (ps sz : Nat) (lm : List Nat) (pg : Nat) : List Nat :=
  (lm.drop (pg * ps)).take (min (pg * ps + ps) sz - pg * ps)

/-- A byte list padded with zeros up to length `ps`. -/
def zerosPad (ps : Nat) (d : List Nat) : List Nat :=
  d ++ List.replicate (ps - d.length) 0

/-- The allocation loop of `create_process`: for `count` pages starting at
page number `pn`, pop a frame off the end of the free list, record the
page-table entry, zero-fill the frame's byte range, then overwrite its
prefix with the page's logical bytes. Returns the page-table entries, the
allocated frames in allocation order, the remaining free list and the new
physical memory; `none` models the (unreachable) `pop` from an empty list. -/
def allocPages (ps sz : Nat) (lm : List Nat) :
    Nat → Nat → List Nat → List Nat →
    Option (List (Nat × Nat) × List Nat × List Nat × List Nat)
  | _, 0, ff, phys => some ([], [], ff, phys)
  | pn, count + 1, ff, phys =>
    match popLast ff with
    | none => none
    | some (frame, ff') =>
      let page_data := pageData ps sz lm pn
      let physical_start := frame * ps
      let phys1 := writeBytes phys physical_start (List.replicate ps 0)
      let phys2 := writeBytes phys1 physical_start page_data
      match allocPages ps sz lm (pn + 1) count ff' phys2 with
      | none => none
      | some (pt, frames, ff'', phys') =>
        some ((pn, frame) :: pt, frame :: frames, ff'', phys')

/-- Ceiling division on naturals; `ceilDiv a b = ⌈a / b⌉` for `b > 0`,
mirroring `math.ceil(size / page_size)`. -/
def ceilDiv (a b : Nat) : Nat := (a + b - 1) / b

/-- The outcome of `create_process`: one failure constructor per error
message the source returns, or the success descriptor (pid, size, number
of pages, allocated frames in allocation order). -/
inductive CreateResult where
  | duplicatePid
  | invalidSize
  | sizeExceedsLimit
  | insufficientMemory
  | ok (pid : Int) (size : Int) (num_pages : Nat) (frames : List Nat)
deriving Repr, DecidableEq

/-- Whether a `CreateResult` is the success descriptor. -/
def CreateResult.isOk : CreateResult → Bool
  | .ok _ _ _ _ => true
  | _ => false

/-- The pids currently registered, in insertion order. -/
def pids (m : MemoryManager) : List Int := m.processes.map Prod.fst

/-- `MemoryManager.create_process`: the four validations in source order,
then the allocation loop, then registration of the new process. Returns
the post-state together with the result; on every failure the state is
returned untouched, exactly as the source returns before mutating.
The `none` branch of the allocation loop corresponds to Python's
`IndexError` on popping an empty list; it is proved unreachable below
(`allocPages_isSome`), so the value returned there is immaterial. -/
def createProcess (m : MemoryManager) (pid size : Int) (rnd : Nat → Nat) :
    MemoryManager × CreateResult :=
  if (pids m).contains pid then (m, .duplicatePid)
  else if size ≤ 0 then (m, .invalidSize)
  else if m.max_process_size < size then (m, .sizeExceedsLimit)
  else if m.free_frames.length < ceilDiv size.toNat m.page_size then
    (m, .insufficientMemory)
  else
    match allocPages m.page_size size.toNat (mkLogicalMemory size.toNat rnd) 0
        (ceilDiv size.toNat m.page_size) m.free_frames m.physical_memory with
    | none => (m, .insufficientMemory)
    | some (pt, frames, ff', phys') =>
      ({ m with
          physical_memory := phys'
          free_frames := ff'
          processes := m.processes ++
            [(pid, { pid := pid, size := size, page_table := pt,
                     logical_memory := mkLogicalMemory size.toNat rnd })] },
       .ok pid size (ceilDiv size.toNat m.page_size) frames)

/-- `self.processes.get(pid)`. -/
def lookupProcess (m : MemoryManager) (pid : Int) : Option Process :=
  (m.processes.find? (fun q => q.1 == pid)).map Prod.snd

/-- Python dict lookup `page_table[page]` (the default is never reached on
the keys the views use). -/
def lookupPage (pt : List (Nat × Nat)) (pg : Nat) : Nat :=
  ((pt.find? (fun e => e.1 == pg)).map Prod.snd).getD 0

/-- One line of the `view_memory` report: the frame index, its owner
`(pid, page)` when mapped, and the raw-byte snippet
`physical_memory[frame*page_size : frame*page_size + 8]`. -/
structure FrameInfo where
  frame : Nat
  owner : Option (Int × Nat)
  snippet : List Nat
deriving Repr, DecidableEq

/-- The structured content of the `view_memory` report. -/
structure MemoryReport where
  free_count : Nat
  used_count : Nat
  free_perc : Rat
  frames : List FrameInfo
deriving Repr, DecidableEq

/-- The reverse index `frame_map` built by `view_memory`: scanning the
processes in order and their page tables in order, a later entry for the
same frame overwrites an earlier one (as with the Python dict writes), so
lookup searches the reversed entry list. -/
def frameMap (m : MemoryManager) (f : Nat) : Option (Int × Nat) :=
  (((m.processes.flatMap
      (fun q => q.2.page_table.map (fun pg => (pg.2, (q.1, pg.1))))).reverse).find?
    (fun e => e.1 == f)).map Prod.snd

/-- `MemoryManager.view_memory` as a pure report: free/used counts, the
free percentage `(free_count / total_frames) * 100`, and one `FrameInfo`
per frame index `0 .. total_frames - 1`. -/
def viewMemory (m : MemoryManager) : MemoryReport :=
  let free_count := m.free_frames.length
  { free_count := free_count
    used_count := m.total_frames - free_count
    free_perc := ((free_count : Rat) / (m.total_frames : Rat)) * 100
    frames := (List.range m.total_frames).map (fun f =>
      { frame := f
        owner := frameMap m f
        snippet := (m.physical_memory.drop (f * m.page_size)).take 8 }) }

/-- The structured content of the `view_page_table` report. -/
structure PageTableReport where
  size : Int
  num_pages : Nat
  mapping : List (Nat × Nat)
deriving Repr, DecidableEq

/-- `MemoryManager.view_page_table`: `none` when the pid is absent
(`ProcessNotFound`), otherwise the size, page count, and the mapping
listed over `sorted(page_table.keys())`. -/
def viewPageTable (m : MemoryManager) (pid : Int) : Option PageTableReport :=
  match lookupProcess m pid with
  | none => none
  | some p =>
    some { size := p.size
           num_pages := p.page_table.length
           mapping := ((p.page_table.map Prod.fst).insertionSort (· ≤ ·)).map
             (fun pg => (pg, lookupPage p.page_table pg)) }

/-- `view_memory` as a state transformer: the method only reads fields, so
the post-state is the input state. -/
def viewMemoryStep (m : MemoryManager) : MemoryManager × MemoryReport :=
  (m, viewMemory m)

/-- `view_page_table` as a state transformer: the method only reads
fields, so the post-state is the input state. -/
def viewPageTableStep (m : MemoryManager) (pid : Int) :
    MemoryManager × Option PageTableReport :=
  (m, viewPageTable m pid)

/-- The states a manager can be in: constructed once (with the positive,
power-of-two page size no larger than physical memory that the excluded
configuration layer guarantees) and then driven by any sequence of
`create_process`, `view_memory` and `view_page_table` calls. -/
inductive Reachable : MemoryManager → Prop where
  | init (physical_size page_size : Nat) (max_proc_size : Int)
      (hpos : 0 < page_size) (hle : page_size ≤ physical_size) :
      Reachable (MemoryManager.init physical_size page_size max_proc_size)
  | create (m : MemoryManager) (pid size : Int) (rnd : Nat → Nat) :
      Reachable m → Reachable (createProcess m pid size rnd).1
  | viewMem (m : MemoryManager) :
      Reachable m → Reachable (viewMemoryStep m).1
  | viewPT (m : MemoryManager) (pid : Int) :
      Reachable m → Reachable (viewPageTableStep m pid).1

/-- All frames referenced by all processes' page tables, process by
process in registration order, pages in table order. -/
def allocatedFrames (m : MemoryManager) : List Nat :=
  m.processes.flatMap (fun q => q.2.page_table.map Prod.snd)

/-- The bytes of frame `f`: `physical_memory[f*page_size : (f+1)*page_size]`. -/
def frameContent (m : MemoryManager) (f : Nat) : List Nat :=
  (m.physical_memory.drop (f * m.page_size)).take m.page_size

/-- What frame `f` must hold for page `pg` of process `p`: the page's
logical bytes, zero-padded to the frame size. -/
def pageContent (ps : Nat) (p : Process) (pg : Nat) : List Nat :=
  zerosPad ps (pageData ps p.size.toNat p.logical_memory pg)

/-- The state invariant maintained by every operation. -/
def Inv (m : MemoryManager) : Prop :=
  0 < m.page_size ∧
  m.page_size ≤ m.physical_size ∧
  m.total_frames = m.physical_size / m.page_size ∧
  m.physical_memory.length = m.physical_size ∧
  m.free_frames = (List.range m.total_frames).reverse.take m.free_frames.length ∧
  (m.free_frames ++ allocatedFrames m).Perm (List.range m.total_frames) ∧
  ∀ q ∈ m.processes,
    q.2.page_table.map Prod.fst = List.range q.2.page_table.length ∧
    q.2.page_table.length = ceilDiv q.2.size.toNat m.page_size ∧
    0 < q.2.size ∧
    q.2.logical_memory.length = q.2.size.toNat ∧
    ∀ e ∈ q.2.page_table, frameContent m e.2 = pageContent m.page_size q.2 e.1

/-! ### Byte-buffer lemmas -/

theorem writeBytes_length (mem data : List Nat) (s : Nat)
    (h : s + data.length ≤ mem.length) :
    (writeBytes mem s data).length = mem.length := by
  simp only [writeBytes, List.length_append, List.length_take, List.length_drop]
  omega

theorem writeBytes_getElem? (mem data : List Nat) (s : Nat)
    (hs : s ≤ mem.length) (j : Nat) :
    (writeBytes mem s data)[j]? =
      if j < s then mem[j]?
      else if j < s + data.length then data[j - s]?
      else mem[j]? := by
  have hts : (mem.take s).length = s := by
    simp only [List.length_take]; omega
  rw [writeBytes, List.append_assoc, List.getElem?_append, hts]
  by_cases h1 : j < s
  · rw [if_pos h1, if_pos h1, List.getElem?_take, if_pos h1]
  · rw [if_neg h1, if_neg h1, List.getElem?_append]
    by_cases h2 : j < s + data.length
    · rw [if_pos (by omega), if_pos h2]
    · rw [if_neg (by omega), if_neg h2, List.getElem?_drop]
      congr 1
      omega

theorem slice_ext (l₁ l₂ : List Nat) (a b : Nat)
    (h : ∀ i, i < b → l₁[a + i]? = l₂[a + i]?) :
    (l₁.drop a).take b = (l₂.drop a).take b := by
  apply List.ext_getElem?
  intro n
  simp only [List.getElem?_take, List.getElem?_drop]
  split_ifs with hn
  · exact h n hn
  · rfl

theorem writeBytes_slice_disjoint (mem data : List Nat) (f g ps : Nat)
    (hd : data.length ≤ ps) (hne : g ≠ f) (hs : f * ps + ps ≤ mem.length) :
    ((writeBytes mem (f * ps) data).drop (g * ps)).take ps =
      (mem.drop (g * ps)).take ps := by
  apply slice_ext
  intro i hi
  rw [writeBytes_getElem? _ _ _ (by omega)]
  split_ifs with h1 h2 <;> try rfl
  exfalso
  rcases Nat.lt_or_ge g f with hgf | hgf
  · have hmul : (g + 1) * ps ≤ f * ps := Nat.mul_le_mul_right _ (by omega)
    have hexp : (g + 1) * ps = g * ps + ps := by ring
    omega
  · have hgf' : f < g := by omega
    have hmul : (f + 1) * ps ≤ g * ps := Nat.mul_le_mul_right _ (by omega)
    have hexp : (f + 1) * ps = f * ps + ps := by ring
    omega

theorem writeBytes_own_slice (mem data : List Nat) (s ps : Nat)
    (hd : data.length ≤ ps) (hs : s + ps ≤ mem.length) :
    ((writeBytes (writeBytes mem s (List.replicate ps 0)) s data).drop s).take ps =
      zerosPad ps data := by
  have hlen1 : (writeBytes mem s (List.replicate ps 0)).length = mem.length :=
    writeBytes_length _ _ _ (by simp only [List.length_replicate]; omega)
  apply List.ext_getElem?
  intro n
  rw [List.getElem?_take, List.getElem?_drop]
  by_cases hn : n < ps
  · rw [if_pos hn, writeBytes_getElem? _ _ _ (by omega),
      if_neg (by omega)]
    by_cases h2 : n < data.length
    · rw [if_pos (by omega)]
      have : s + n - s = n := by omega
      rw [this, zerosPad, List.getElem?_append, if_pos h2]
    · rw [if_neg (by omega), writeBytes_getElem? _ _ _ (by omega),
        if_neg (by omega), if_pos (by simp only [List.length_replicate]; omega),
        List.getElem?_replicate, if_pos (by omega)]
      rw [zerosPad, List.getElem?_append_right (by omega), List.getElem?_replicate,
        if_pos (by omega)]
  · rw [if_neg hn]
    rw [List.getElem?_eq_none]
    simp only [zerosPad, List.length_append, List.length_replicate]
    omega

/-! ### The allocation loop -/

theorem popLast_eq_some (ff : List Nat) (h : ff ≠ []) :
    popLast ff = some (ff.getLast h, ff.dropLast) := by
  rw [popLast, List.getLast?_eq_getLast ff h]

theorem pageData_length_le (ps sz : Nat) (lm : List Nat) (pg : Nat) :
    (pageData ps sz lm pg).length ≤ ps := by
  simp only [pageData, List.length_take, List.length_drop]
  omega

theorem allocPages_succ (ps sz : Nat) (lm : List Nat) (pn count : Nat)
    (ff phys : List Nat) (hne : ff ≠ []) :
    allocPages ps sz lm pn (count + 1) ff phys =
      (match allocPages ps sz lm (pn + 1) count ff.dropLast
          (writeBytes (writeBytes phys (ff.getLast hne * ps)
            (List.replicate ps 0)) (ff.getLast hne * ps) (pageData ps sz lm pn)) with
       | none => none
       | some (pt, frames, ff'', phys') =>
         some ((pn, ff.getLast hne) :: pt, ff.getLast hne :: frames, ff'', phys')) := by
  rw [allocPages, popLast_eq_some ff hne]

theorem allocPages_spec (ps sz : Nat) (lm : List Nat) :
    ∀ (count pn : Nat) (ff phys : List Nat),
      count ≤ ff.length → ff.Nodup →
      (∀ f ∈ ff, f * ps + ps ≤ phys.length) →
      ∃ pt frames ff' phys',
        allocPages ps sz lm pn count ff phys = some (pt, frames, ff', phys') ∧
        pt.map Prod.fst = List.range' pn count ∧
        pt.map Prod.snd = frames ∧
        ff = ff' ++ frames.reverse ∧
        phys'.length = phys.length ∧
        (∀ g, g ∉ frames →
          (phys'.drop (g * ps)).take ps = (phys.drop (g * ps)).take ps) ∧
        ∀ e ∈ pt, (phys'.drop (e.2 * ps)).take ps =
          zerosPad ps (pageData ps sz lm e.1) := by
  intro count
  induction count with
  | zero =>
    intro pn ff phys _ _ _
    exact ⟨[], [], ff, phys, rfl, rfl, rfl, by simp, rfl,
      fun g _ => rfl, by simp⟩
  | succ k ih =>
    intro pn ff phys hcount hnd hbound
    have hne : ff ≠ [] := by
      intro he
      rw [he] at hcount
      simp at hcount
    set x := ff.getLast hne with hx
    set ff₀ := ff.dropLast with hff₀
    have hffsplit : ff₀ ++ [x] = ff := List.dropLast_append_getLast hne
    have hx_mem : x ∈ ff := List.getLast_mem hne
    have hnd' : (ff₀ ++ [x]).Nodup := by rw [hffsplit]; exact hnd
    have hnd₀ : ff₀.Nodup := (List.nodup_append.mp hnd').1
    have hx_not : x ∉ ff₀ := by
      intro hmem
      exact (List.nodup_append.mp hnd').2.2 hmem (by simp)
    have hmem₀ : ∀ f ∈ ff₀, f ∈ ff := by
      intro f hf
      rw [← hffsplit]
      exact List.mem_append_left _ hf
    have hb_x : x * ps + ps ≤ phys.length := hbound x hx_mem
    have hd_le : (pageData ps sz lm pn).length ≤ ps := pageData_length_le ps sz lm pn
    set d := pageData ps sz lm pn with hdd
    set phys1 := writeBytes phys (x * ps) (List.replicate ps 0) with hphys1
    set phys2 := writeBytes phys1 (x * ps) d with hphys2
    have hlen1 : phys1.length = phys.length :=
      writeBytes_length _ _ _ (by simp only [List.length_replicate]; omega)
    have hlen2 : phys2.length = phys.length := by
      rw [hphys2, writeBytes_length _ _ _ (by omega)]
      exact hlen1
    have hlen₀ : ff₀.length = ff.length - 1 := by
      rw [hff₀, List.length_dropLast]
    obtain ⟨pt', frames', ff', phys', heq, hfst, hsnd, hsplit', hlen', hunt', hcont'⟩ :=
      ih (pn + 1) ff₀ phys2 (by omega) hnd₀
        (fun f hf => by rw [hlen2]; exact hbound f (hmem₀ f hf))
    have hframes'_sub : ∀ f ∈ frames', f ∈ ff₀ := by
      intro f hf
      rw [hsplit']
      exact List.mem_append_right _ (List.mem_reverse.mpr hf)
    refine ⟨(pn, x) :: pt', x :: frames', ff', phys', ?_, ?_, ?_, ?_, ?_, ?_, ?_⟩
    · rw [allocPages_succ ps sz lm pn k ff phys hne, ← hx, ← hff₀, ← hdd, ← hphys1,
        ← hphys2, heq]
    · simp only [List.map_cons, hfst, List.range'_succ]
    · simp only [List.map_cons, hsnd]
    · rw [← hffsplit, hsplit', List.reverse_cons, ← List.append_assoc]
    · rw [hlen', hlen2]
    · intro g hg
      have hgx : g ≠ x := by simp at hg; exact hg.1
      have hgfr : g ∉ frames' := by simp at hg; exact hg.2
      rw [hunt' g hgfr, hphys2, writeBytes_slice_disjoint phys1 d x g ps hd_le hgx
        (by rw [hlen1]; exact hb_x),
        hphys1, writeBytes_slice_disjoint phys _ x g ps (by simp) hgx hb_x]
    · intro e he
      rcases List.mem_cons.mp he with he | he
      · subst he
        have hx_not_fr : x ∉ frames' := fun hmem => hx_not (hframes'_sub x hmem)
        rw [hunt' x hx_not_fr, hphys2, hphys1, writeBytes_own_slice phys d (x * ps) ps
          hd_le hb_x]
      · exact hcont' e he

theorem allocPages_isSome (ps sz : Nat) (lm : List Nat) :
    ∀ (count pn : Nat) (ff phys : List Nat), count ≤ ff.length →
      ∃ out, allocPages ps sz lm pn count ff phys = some out := by
  intro count
  induction count with
  | zero => exact fun pn ff phys _ => ⟨([], [], ff, phys), rfl⟩
  | succ k ih =>
    intro pn ff phys h
    have hne : ff ≠ [] := by
      intro he
      rw [he] at h
      simp at h
    have hlen₀ : ff.dropLast.length = ff.length - 1 := List.length_dropLast ff
    obtain ⟨out, hout⟩ := ih (pn + 1) ff.dropLast
      (writeBytes (writeBytes phys (ff.getLast hne * ps) (List.replicate ps 0))
        (ff.getLast hne * ps) (pageData ps sz lm pn)) (by omega)
    obtain ⟨pt, frames, ff'', phys'⟩ := out
    exact ⟨_, by rw [allocPages_succ ps sz lm pn k ff phys hne, hout]⟩

/-! ### Inversion of `createProcess` and the invariant -/

theorem createProcess_inversion (m : MemoryManager) (pid size : Int)
    (rnd : Nat → Nat) :
    ((createProcess m pid size rnd).1 = m ∧
      (createProcess m pid size rnd).2.isOk = false) ∨
    ∃ pt frames ff' phys',
      (pids m).contains pid = false ∧ 0 < size ∧ size ≤ m.max_process_size ∧
      ceilDiv size.toNat m.page_size ≤ m.free_frames.length ∧
      allocPages m.page_size size.toNat (mkLogicalMemory size.toNat rnd) 0
          (ceilDiv size.toNat m.page_size) m.free_frames m.physical_memory
        = some (pt, frames, ff', phys') ∧
      (createProcess m pid size rnd).1 =
        { m with
            physical_memory := phys'
            free_frames := ff'
            processes := m.processes ++
              [(pid, { pid := pid, size := size, page_table := pt,
                       logical_memory := mkLogicalMemory size.toNat rnd })] } ∧
      (createProcess m pid size rnd).2 =
        .ok pid size (ceilDiv size.toNat m.page_size) frames := by
  rw [createProcess]
  by_cases h1 : (pids m).contains pid = true
  · rw [if_pos h1]
    exact Or.inl ⟨rfl, rfl⟩
  · rw [if_neg h1]
    by_cases h2 : size ≤ 0
    · rw [if_pos h2]
      exact Or.inl ⟨rfl, rfl⟩
    · rw [if_neg h2]
      by_cases h3 : m.max_process_size < size
      · rw [if_pos h3]
        exact Or.inl ⟨rfl, rfl⟩
      · rw [if_neg h3]
        by_cases h4 : m.free_frames.length < ceilDiv size.toNat m.page_size
        · rw [if_pos h4]
          exact Or.inl ⟨rfl, rfl⟩
        · rw [if_neg h4]
          obtain ⟨⟨pt, frames, ff', phys'⟩, heq⟩ :=
            allocPages_isSome m.page_size size.toNat
              (mkLogicalMemory size.toNat rnd) (ceilDiv size.toNat m.page_size) 0
              m.free_frames m.physical_memory (by omega)
          rw [heq]
          refine Or.inr ⟨pt, frames, ff', phys', ?_, by omega, by omega, by omega,
            rfl, rfl, rfl⟩
          simp only [Bool.not_eq_true] at h1
          exact h1

theorem mkLogicalMemory_length (size : Nat) (rnd : Nat → Nat) :
    (mkLogicalMemory size rnd).length = size := by
  simp [mkLogicalMemory]

theorem inv_init (p q : Nat) (mx : Int) (hpos : 0 < q) (hle : q ≤ p) :
    Inv (MemoryManager.init p q mx) := by
  refine ⟨hpos, hle, rfl, by simp [MemoryManager.init], ?_, ?_, ?_⟩
  · show (List.range (p / q)).reverse =
      ((List.range (p / q)).reverse).take ((List.range (p / q)).reverse).length
    rw [List.take_length]
  · show ((List.range (p / q)).reverse ++ allocatedFrames _).Perm _
    have h : allocatedFrames (MemoryManager.init p q mx) = [] := rfl
    rw [h, List.append_nil]
    exact List.reverse_perm _
  · intro q hq
    simp [MemoryManager.init] at hq

theorem inv_createProcess (m : MemoryManager) (pid size : Int) (rnd : Nat → Nat)
    (hm : Inv m) : Inv (createProcess m pid size rnd).1 := by
  rcases createProcess_inversion m pid size rnd with ⟨hsame, _⟩ |
    ⟨pt, frames, ff', phys', hdup, hpos, hmax, hfits, halloc, heq, _⟩
  · rw [hsame]
    exact hm
  obtain ⟨hps, hlep, htf, hpm, hshape, hperm, hprocs⟩ := hm
  have hndall : (m.free_frames ++ allocatedFrames m).Nodup :=
    (hperm.nodup_iff).mpr (List.nodup_range _)
  have hndff : m.free_frames.Nodup := (List.nodup_append.mp hndall).1
  have hdisj : m.free_frames.Disjoint (allocatedFrames m) :=
    (List.nodup_append.mp hndall).2.2
  have hmemrange : ∀ f ∈ m.free_frames, f < m.total_frames := by
    intro f hf
    exact List.mem_range.mp (hperm.mem_iff.mp (List.mem_append_left _ hf))
  have hbound : ∀ f ∈ m.free_frames,
      f * m.page_size + m.page_size ≤ m.physical_memory.length := by
    intro f hf
    have hflt := hmemrange f hf
    have h1 : (f + 1) * m.page_size ≤ m.total_frames * m.page_size :=
      Nat.mul_le_mul_right _ (by omega)
    have h2 : m.total_frames * m.page_size ≤ m.physical_size := by
      rw [htf]
      exact Nat.div_mul_le_self _ _
    have h3 : (f + 1) * m.page_size = f * m.page_size + m.page_size := by ring
    omega
  obtain ⟨pt₂, frames₂, ff₂, phys₂, heq₂, hfst, hsnd, hsplit, hlen, hunt, hcont⟩ :=
    allocPages_spec m.page_size size.toNat (mkLogicalMemory size.toNat rnd)
      (ceilDiv size.toNat m.page_size) 0 m.free_frames m.physical_memory
      hfits hndff hbound
  rw [halloc] at heq₂
  simp only [Option.some.injEq, Prod.mk.injEq] at heq₂
  obtain ⟨hpt, hfr, hff, hph⟩ := heq₂
  subst hpt hfr hff hph
  rw [heq]
  have hframes_ff : ∀ f ∈ frames, f ∈ m.free_frames := by
    intro f hf
    rw [hsplit]
    exact List.mem_append_right _ (List.mem_reverse.mpr hf)
  refine ⟨hps, hlep, htf, ?_, ?_, ?_, ?_⟩
  · show phys'.length = m.physical_size
    rw [hlen, hpm]
  · show ff' = (List.range m.total_frames).reverse.take ff'.length
    have hlenle : ff'.length ≤ m.free_frames.length := by
      rw [hsplit]
      simp
    calc ff' = List.take ff'.length m.free_frames := by
          rw [hsplit, List.take_left]
      _ = List.take ff'.length
            ((List.range m.total_frames).reverse.take m.free_frames.length) := by
          rw [← hshape]
      _ = (List.range m.total_frames).reverse.take ff'.length := by
          rw [List.take_take]
          congr 1
          omega
  · show (ff' ++ allocatedFrames _).Perm (List.range m.total_frames)
    have hall : allocatedFrames
        { m with
            physical_memory := phys'
            free_frames := ff'
            processes := m.processes ++
              [(pid, { pid := pid, size := size, page_table := pt,
                       logical_memory := mkLogicalMemory size.toNat rnd })] } =
        allocatedFrames m ++ pt.map Prod.snd := by
      simp [allocatedFrames, List.flatMap_append]
    rw [hall, hsnd]
    have p1 : (ff' ++ (allocatedFrames m ++ frames)).Perm
        (ff' ++ (frames ++ allocatedFrames m)) :=
      List.Perm.append_left _ List.perm_append_comm
    have p2 : (ff' ++ (frames ++ allocatedFrames m)).Perm
        (ff' ++ (frames.reverse ++ allocatedFrames m)) :=
      List.Perm.append_left _
        (List.Perm.append_right _ (List.reverse_perm frames).symm)
    have p3 : (ff' ++ (frames.reverse ++ allocatedFrames m)).Perm
        (List.range m.total_frames) := by
      rw [← List.append_assoc, ← hsplit]
      exact hperm
    exact (p1.trans p2).trans p3
  · intro q hq
    rcases List.mem_append.mp hq with hq | hq
    · obtain ⟨hkeys, hlen', hszpos, hlm, hcontent⟩ := hprocs q hq
      refine ⟨hkeys, hlen', hszpos, hlm, ?_⟩
      intro e he
      have hmemall : e.2 ∈ allocatedFrames m :=
        List.mem_flatMap.mpr ⟨q, hq, List.mem_map_of_mem _ he⟩
      have hnotfr : e.2 ∉ frames := by
        intro hin
        exact hdisj (hframes_ff _ hin) hmemall
      show (phys'.drop (e.2 * m.page_size)).take m.page_size = _
      rw [hunt e.2 hnotfr]
      exact hcontent e he
    · have hq' : q = (pid, { pid := pid, size := size, page_table := pt,
                             logical_memory := mkLogicalMemory size.toNat rnd }) := by
        simpa using hq
      subst hq'
      have hptlen : pt.length = ceilDiv size.toNat m.page_size := by
        have h := congrArg List.length hfst
        simpa using h
      refine ⟨?_, hptlen, hpos, ?_, ?_⟩
      · rw [hfst, hptlen, List.range_eq_range']
      · exact mkLogicalMemory_length _ _
      · intro e he
        show (phys'.drop (e.2 * m.page_size)).take m.page_size = _
        rw [hcont e he]
        rfl

theorem reachable_inv (m : MemoryManager) (h : Reachable m) : Inv m := by
  induction h with
  | init p q mx hpos hle => exact inv_init p q mx hpos hle
  | create m pid size rnd _ ih => exact inv_createProcess m pid size rnd ih
  | viewMem m _ ih => exact ih
  | viewPT m pid _ ih => exact ih

/-! ### Claim theorems -/

/-- C1: in every state reachable from construction by any sequence of
`create_process`, `view_memory` and `view_page_table` calls, the
concatenation of `free_frames` with all frames referenced by all
processes' page tables is a permutation of `0 .. total_frames - 1`
(hence covers it exactly, with no duplicates), and the list of frames
referenced by the (pid, page) entries of all processes has no duplicates
(no two entries map to the same frame). -/
theorem claim_C1_frame_partition_injective (m : MemoryManager)
    (h : Reachable m) :
    (m.free_frames ++ allocatedFrames m).Perm (List.range m.total_frames) ∧
    (m.free_frames ++ allocatedFrames m).Nodup ∧
    (allocatedFrames m).Nodup := by
  obtain ⟨_, _, _, _, _, hperm, _⟩ := reachable_inv m h
  have hnd : (m.free_frames ++ allocatedFrames m).Nodup :=
    hperm.nodup_iff.mpr (List.nodup_range _)
  exact ⟨hperm, hnd, (List.nodup_append.mp hnd).2.1⟩

/-- Witness for C1 at the state reached after one allocation on a
16-byte memory with 4-byte pages. -/
theorem claim_C1_witness :
    ((createProcess (MemoryManager.init 16 4 16) 1 8 (fun _ => 0)).1.free_frames ++
        allocatedFrames (createProcess (MemoryManager.init 16 4 16) 1 8
          (fun _ => 0)).1).Perm
      (List.range (createProcess (MemoryManager.init 16 4 16) 1 8
        (fun _ => 0)).1.total_frames) ∧
    ((createProcess (MemoryManager.init 16 4 16) 1 8 (fun _ => 0)).1.free_frames ++
        allocatedFrames (createProcess (MemoryManager.init 16 4 16) 1 8
          (fun _ => 0)).1).Nodup ∧
    (allocatedFrames (createProcess (MemoryManager.init 16 4 16) 1 8
      (fun _ => 0)).1).Nodup :=
  claim_C1_frame_partition_injective _
    (Reachable.create _ 1 8 (fun _ => 0)
      (Reachable.init 16 4 16 (by decide) (by decide)))

/-- C2: the free pool of every reachable state is the descending list of
the still-free frame indices, so frames are drawn (popped from the end)
in strictly ascending index order across all successful calls; in
particular, on a fresh manager with 4 frames, a first 2-page process gets
frames [0, 1] (page 0 to frame 0, page 1 to frame 1) and a second 2-page
process gets frames [2, 3]. -/
theorem claim_C2_ascending_frame_order :
    (∀ m : MemoryManager, Reachable m →
      m.free_frames =
        (List.range m.total_frames).reverse.take m.free_frames.length) ∧
    (createProcess (MemoryManager.init 16 4 16) 1 8 (fun _ => 0)).2 =
      .ok 1 8 2 [0, 1] ∧
    (lookupProcess (createProcess (MemoryManager.init 16 4 16) 1 8
        (fun _ => 0)).1 1).map Process.page_table = some [(0, 0), (1, 1)] ∧
    (createProcess (createProcess (MemoryManager.init 16 4 16) 1 8
        (fun _ => 0)).1 2 8 (fun _ => 0)).2 = .ok 2 8 2 [2, 3] := by
  refine ⟨?_, by decide, by decide, by decide⟩
  intro m h
  exact (reachable_inv m h).2.2.2.2.1

/-- Witness for the quantified part of C2 at a state with one process. -/
theorem claim_C2_witness :
    (createProcess (MemoryManager.init 16 4 16) 1 8 (fun _ => 0)).1.free_frames =
      (List.range (createProcess (MemoryManager.init 16 4 16) 1 8
        (fun _ => 0)).1.total_frames).reverse.take
        (createProcess (MemoryManager.init 16 4 16) 1 8
          (fun _ => 0)).1.free_frames.length :=
  claim_C2_ascending_frame_order.1 _
    (Reachable.create _ 1 8 (fun _ => 0)
      (Reachable.init 16 4 16 (by decide) (by decide)))

/-- C3: after a successful `create_process`, the new process is registered
under its pid and every frame holding one of its pages contains the page's
logical bytes (`logical_memory[p*page_size : min((p+1)*page_size, size)]`)
followed by zero bytes up to `page_size`. -/
theorem claim_C3_page_copy_zero_fill (m : MemoryManager) (pid size : Int)
    (rnd : Nat → Nat) (h : Reachable m)
    (hok : (createProcess m pid size rnd).2.isOk = true) :
    ∃ proc, (pid, proc) ∈ (createProcess m pid size rnd).1.processes ∧
      proc.size = size ∧
      ∀ e ∈ proc.page_table,
        frameContent (createProcess m pid size rnd).1 e.2 =
          pageContent (createProcess m pid size rnd).1.page_size proc e.1 := by
  rcases createProcess_inversion m pid size rnd with ⟨_, hf⟩ |
    ⟨pt, frames, ff', phys', _, _, _, _, _, heq, _⟩
  · rw [hf] at hok
    cases hok
  · refine ⟨{ pid := pid, size := size, page_table := pt,
              logical_memory := mkLogicalMemory size.toNat rnd }, ?_, rfl, ?_⟩
    · rw [heq]
      exact List.mem_append_right _ (by simp)
    · have hreach : Reachable (createProcess m pid size rnd).1 :=
        Reachable.create m pid size rnd h
      obtain ⟨_, _, _, _, _, _, hprocs⟩ := reachable_inv _ hreach
      have hmem : ((pid, { pid := pid, size := size, page_table := pt,
                           logical_memory := mkLogicalMemory size.toNat rnd }) :
            Int × Process) ∈
          (createProcess m pid size rnd).1.processes := by
        rw [heq]
        exact List.mem_append_right _ (by simp)
      intro e he
      exact (hprocs _ hmem).2.2.2.2 e he

/-- Witness for C3: `page_size = 4`, `size = 5`, logical bytes all 7; the
frame of page 1 holds the logical byte at offset 4 followed by 3 zeros. -/
theorem claim_C3_witness :
    (∃ proc, (1, proc) ∈ (createProcess (MemoryManager.init 8 4 8) 1 5
        (fun _ => 7)).1.processes ∧
      proc.size = 5 ∧
      ∀ e ∈ proc.page_table,
        frameContent (createProcess (MemoryManager.init 8 4 8) 1 5
          (fun _ => 7)).1 e.2 =
          pageContent (createProcess (MemoryManager.init 8 4 8) 1 5
            (fun _ => 7)).1.page_size proc e.1) ∧
    frameContent (createProcess (MemoryManager.init 8 4 8) 1 5
      (fun _ => 7)).1 1 = [7, 0, 0, 0] :=
  ⟨claim_C3_page_copy_zero_fill (MemoryManager.init 8 4 8) 1 5 (fun _ => 7)
    (Reachable.init 8 4 8 (by decide) (by decide)) (by decide), by decide⟩

/-- C4: `create_process` yields each failure kind exactly under its spec
condition, checked in the fixed source order (duplicate pid, then
non-positive size, then size above the configured maximum, then not
enough free frames), and succeeds if and only if none of them holds.
`ceilDiv size.toNat page_size` is `ceil(size / page_size)` for the
positive page sizes the configuration layer guarantees. -/
theorem claim_C4_failure_kinds (m : MemoryManager) (pid size : Int)
    (rnd : Nat → Nat) (_hps : 0 < m.page_size) :
    ((createProcess m pid size rnd).2 = .duplicatePid ↔ pid ∈ pids m) ∧
    ((createProcess m pid size rnd).2 = .invalidSize ↔
      pid ∉ pids m ∧ size ≤ 0) ∧
    ((createProcess m pid size rnd).2 = .sizeExceedsLimit ↔
      pid ∉ pids m ∧ 0 < size ∧ m.max_process_size < size) ∧
    ((createProcess m pid size rnd).2 = .insufficientMemory ↔
      pid ∉ pids m ∧ 0 < size ∧ size ≤ m.max_process_size ∧
      m.free_frames.length < ceilDiv size.toNat m.page_size) ∧
    ((createProcess m pid size rnd).2.isOk = true ↔
      pid ∉ pids m ∧ 0 < size ∧ size ≤ m.max_process_size ∧
      ceilDiv size.toNat m.page_size ≤ m.free_frames.length) := by
  rw [createProcess]
  by_cases h1 : (pids m).contains pid = true
  · rw [if_pos h1]
    have hmem : pid ∈ pids m := List.elem_iff.mp h1
    refine ⟨?_, ?_, ?_, ?_, ?_⟩ <;> simp [CreateResult.isOk, hmem]
  · rw [if_neg h1]
    have hnot : pid ∉ pids m := fun hmem => h1 (List.elem_iff.mpr hmem)
    by_cases h2 : size ≤ 0
    · rw [if_pos h2]
      refine ⟨?_, ?_, ?_, ?_, ?_⟩ <;>
        simp [CreateResult.isOk, hnot, h2, show ¬(0:Int) < size by omega]
    · rw [if_neg h2]
      have hpos : (0:Int) < size := by omega
      by_cases h3 : m.max_process_size < size
      · rw [if_pos h3]
        refine ⟨?_, ?_, ?_, ?_, ?_⟩ <;>
          simp [CreateResult.isOk, hnot, hpos, h3, h2,
            show ¬size ≤ m.max_process_size by omega]
      · rw [if_neg h3]
        have hle3 : size ≤ m.max_process_size := by omega
        by_cases h4 : m.free_frames.length < ceilDiv size.toNat m.page_size
        · rw [if_pos h4]
          refine ⟨?_, ?_, ?_, ?_, ?_⟩ <;>
            simp [CreateResult.isOk, hnot, hpos, hle3, h4, h2, h3]
        · rw [if_neg h4]
          obtain ⟨⟨pt, frames, ff', phys'⟩, heq⟩ :=
            allocPages_isSome m.page_size size.toNat
              (mkLogicalMemory size.toNat rnd) (ceilDiv size.toNat m.page_size)
              0 m.free_frames m.physical_memory (by omega)
          rw [heq]
          refine ⟨?_, ?_, ?_, ?_, ?_⟩ <;>
            simp [CreateResult.isOk, hnot, hpos, hle3, h2, h3, h4,
              Nat.le_of_not_lt h4]

/-- Witness for C4 on a fresh manager: the success case of the
characterization, instantiated and evaluated. -/
theorem claim_C4_witness :
    0 < (MemoryManager.init 16 4 8).page_size ∧
    (((createProcess (MemoryManager.init 16 4 8) 1 5 (fun _ => 0)).2 =
        .duplicatePid ↔ (1:Int) ∈ pids (MemoryManager.init 16 4 8)) ∧
     ((createProcess (MemoryManager.init 16 4 8) 1 5 (fun _ => 0)).2 =
        .invalidSize ↔ (1:Int) ∉ pids (MemoryManager.init 16 4 8) ∧
        (5:Int) ≤ 0) ∧
     ((createProcess (MemoryManager.init 16 4 8) 1 5 (fun _ => 0)).2 =
        .sizeExceedsLimit ↔ (1:Int) ∉ pids (MemoryManager.init 16 4 8) ∧
        (0:Int) < 5 ∧ (MemoryManager.init 16 4 8).max_process_size < 5) ∧
     ((createProcess (MemoryManager.init 16 4 8) 1 5 (fun _ => 0)).2 =
        .insufficientMemory ↔ (1:Int) ∉ pids (MemoryManager.init 16 4 8) ∧
        (0:Int) < 5 ∧ (5:Int) ≤ (MemoryManager.init 16 4 8).max_process_size ∧
        (MemoryManager.init 16 4 8).free_frames.length <
          ceilDiv (5:Int).toNat (MemoryManager.init 16 4 8).page_size) ∧
     ((createProcess (MemoryManager.init 16 4 8) 1 5 (fun _ => 0)).2.isOk =
        true ↔ (1:Int) ∉ pids (MemoryManager.init 16 4 8) ∧
        (0:Int) < 5 ∧ (5:Int) ≤ (MemoryManager.init 16 4 8).max_process_size ∧
        ceilDiv (5:Int).toNat (MemoryManager.init 16 4 8).page_size ≤
          (MemoryManager.init 16 4 8).free_frames.length)) :=
  ⟨by decide, claim_C4_failure_kinds (MemoryManager.init 16 4 8) 1 5
    (fun _ => 0) (by decide)⟩

/-- C5: whenever `create_process` fails for any reason, the manager state
is unchanged: the returned state equals the input state field for field
(`free_frames`, `physical_memory`, `processes` and configuration). -/
theorem claim_C5_failed_create_preserves_state (m : MemoryManager)
    (pid size : Int) (rnd : Nat → Nat)
    (hfail : (createProcess m pid size rnd).2.isOk = false) :
    (createProcess m pid size rnd).1 = m := by
  rcases createProcess_inversion m pid size rnd with ⟨h, _⟩ |
    ⟨_, _, _, _, _, _, _, _, _, _, hok⟩
  · exact h
  · rw [hok] at hfail
    cases hfail

/-- Witness for C5: an invalid (zero) size leaves the fresh manager
untouched. -/
theorem claim_C5_witness :
    (createProcess (MemoryManager.init 16 4 8) 1 0 (fun _ => 0)).1 =
      MemoryManager.init 16 4 8 :=
  claim_C5_failed_create_preserves_state (MemoryManager.init 16 4 8) 1 0
    (fun _ => 0) (by decide)

/-- C6: every registered process's page table has exactly
`ceil(size / page_size)` entries, and its page indices are exactly
`0 .. n-1` in order with no gaps, in every reachable state. -/
theorem claim_C6_page_table_shape (m : MemoryManager) (h : Reachable m) :
    ∀ q ∈ m.processes,
      q.2.page_table.length = ceilDiv q.2.size.toNat m.page_size ∧
      q.2.page_table.map Prod.fst = List.range q.2.page_table.length := by
  intro q hq
  obtain ⟨_, _, _, _, _, _, hprocs⟩ := reachable_inv m h
  obtain ⟨hk, hl, _, _, _⟩ := hprocs q hq
  exact ⟨hl, hk⟩

/-- Witness for C6 at the registered 5-byte process (2 pages): its table
is [(0, 0), (1, 1)], of length ceil(5 / 4) = 2 with keys [0, 1]. -/
theorem claim_C6_witness :
    ([((0 : Nat), (0 : Nat)), (1, 1)].length =
      ceilDiv (5 : Int).toNat
        (createProcess (MemoryManager.init 16 4 8) 1 5 (fun _ => 0)).1.page_size) ∧
    [((0 : Nat), (0 : Nat)), (1, 1)].map Prod.fst =
      List.range [((0 : Nat), (0 : Nat)), (1, 1)].length :=
  claim_C6_page_table_shape _
    (Reachable.create _ 1 5 (fun _ => 0)
      (Reachable.init 16 4 8 (by decide) (by decide)))
    (1, { pid := 1, size := 5, page_table := [(0, 0), (1, 1)],
          logical_memory := [0, 0, 0, 0, 0] })
    (by decide)

theorem lookupPage_cons_self (hd : Nat × Nat) (tl : List (Nat × Nat)) :
    lookupPage (hd :: tl) hd.1 = hd.2 := by
  rw [lookupPage, List.find?_cons_of_pos _ (by simp)]
  rfl

theorem lookupPage_cons_ne (hd : Nat × Nat) (tl : List (Nat × Nat)) (pg : Nat)
    (hne : hd.1 ≠ pg) :
    lookupPage (hd :: tl) pg = lookupPage tl pg := by
  rw [lookupPage, List.find?_cons_of_neg _ (by simp [hne]), lookupPage]

theorem map_lookupPage_of_nodup (pt : List (Nat × Nat))
    (hnd : (pt.map Prod.fst).Nodup) :
    (pt.map Prod.fst).map (fun pg => (pg, lookupPage pt pg)) = pt := by
  induction pt with
  | nil => rfl
  | cons hd tl ih =>
    rw [List.map_cons] at hnd
    have h1 := (List.nodup_cons.mp hnd).1
    have h2 := (List.nodup_cons.mp hnd).2
    rw [List.map_cons, List.map_cons]
    congr 1
    · rw [lookupPage_cons_self]
    · have hcong : (tl.map Prod.fst).map (fun pg => (pg, lookupPage (hd :: tl) pg)) =
          (tl.map Prod.fst).map (fun pg => (pg, lookupPage tl pg)) := by
        apply List.map_congr_left
        intro pg hpg
        have hne : hd.1 ≠ pg := fun he => h1 (he ▸ hpg)
        rw [lookupPage_cons_ne hd tl pg hne]
      rw [hcong, ih h2]

/-- C7: `view_page_table` mutates nothing, fails exactly when the pid is
not registered, and otherwise reports the process's size, its page count,
and its full page-to-frame mapping with the page indices in strictly
ascending order (the sort leaves the already-ascending table unchanged). -/
theorem claim_C7_view_page_table (m : MemoryManager) (pid : Int)
    (h : Reachable m) :
    (viewPageTableStep m pid).1 = m ∧
    (viewPageTable m pid = none ↔ pid ∉ pids m) ∧
    ∀ proc, lookupProcess m pid = some proc →
      viewPageTable m pid =
        some { size := proc.size, num_pages := proc.page_table.length,
               mapping := proc.page_table } ∧
      (proc.page_table.map Prod.fst).Sorted (· < ·) := by
  refine ⟨rfl, ?_, ?_⟩
  · cases hlk : lookupProcess m pid with
    | none =>
      simp only [viewPageTable, hlk]
      have hf : m.processes.find? (fun q => q.1 == pid) = none :=
        Option.map_eq_none'.mp hlk
      have hall := List.find?_eq_none.mp hf
      constructor
      · intro _ hmem
        obtain ⟨q, hq, hq1⟩ := List.mem_map.mp hmem
        exact hall q hq (by simp [hq1])
      · intro _
        trivial
    | some proc =>
      simp only [viewPageTable, hlk]
      have hf : ∃ q, m.processes.find? (fun q => q.1 == pid) = some q := by
        cases hf' : m.processes.find? (fun q => q.1 == pid) with
        | none => rw [lookupProcess, hf'] at hlk; cases hlk
        | some q => exact ⟨q, rfl⟩
      obtain ⟨q, hfind⟩ := hf
      have hqmem := List.mem_of_find?_eq_some hfind
      have hq1 : q.1 = pid := by simpa using List.find?_some hfind
      constructor
      · intro hcontra
        cases hcontra
      · intro hnot
        exact absurd (hq1 ▸ List.mem_map_of_mem Prod.fst hqmem) hnot
  · intro proc hlk
    have hf : ∃ q, m.processes.find? (fun q => q.1 == pid) = some q ∧
        q.2 = proc := by
      cases hf' : m.processes.find? (fun q => q.1 == pid) with
      | none => rw [lookupProcess, hf'] at hlk; cases hlk
      | some q =>
        rw [lookupProcess, hf'] at hlk
        exact ⟨q, rfl, by simpa using hlk⟩
    obtain ⟨q, hfind, hq2⟩ := hf
    have hqmem := List.mem_of_find?_eq_some hfind
    obtain ⟨_, _, _, _, _, _, hprocs⟩ := reachable_inv m h
    have hkeys : proc.page_table.map Prod.fst =
        List.range proc.page_table.length := by
      rw [← hq2]
      exact (hprocs q hqmem).1
    have hsorted_le : (proc.page_table.map Prod.fst).Sorted (· ≤ ·) := by
      rw [hkeys]
      exact (List.pairwise_lt_range _).imp (fun hab => le_of_lt hab)
    have hnd : (proc.page_table.map Prod.fst).Nodup := by
      rw [hkeys]
      exact List.nodup_range _
    refine ⟨?_, ?_⟩
    · simp only [viewPageTable, hlk]
      rw [List.Sorted.insertionSort_eq hsorted_le, map_lookupPage_of_nodup _ hnd]
    · rw [hkeys]
      exact List.pairwise_lt_range _

/-- Witness for C7 at a state with one registered process. -/
theorem claim_C7_witness :
    (viewPageTableStep (createProcess (MemoryManager.init 16 4 8) 1 5
        (fun _ => 0)).1 1).1 =
      (createProcess (MemoryManager.init 16 4 8) 1 5 (fun _ => 0)).1 ∧
    (viewPageTable (createProcess (MemoryManager.init 16 4 8) 1 5
        (fun _ => 0)).1 1 = none ↔
      (1:Int) ∉ pids (createProcess (MemoryManager.init 16 4 8) 1 5
        (fun _ => 0)).1) ∧
    ∀ proc, lookupProcess (createProcess (MemoryManager.init 16 4 8) 1 5
        (fun _ => 0)).1 1 = some proc →
      viewPageTable (createProcess (MemoryManager.init 16 4 8) 1 5
          (fun _ => 0)).1 1 =
        some { size := proc.size, num_pages := proc.page_table.length,
               mapping := proc.page_table } ∧
      (proc.page_table.map Prod.fst).Sorted (· < ·) :=
  claim_C7_view_page_table _ 1
    (Reachable.create _ 1 5 (fun _ => 0)
      (Reachable.init 16 4 8 (by decide) (by decide)))

/-- C8 counterexample: on a fresh manager with `page_size = 4` and four
frames, the snippet `view_memory` reports for frame 0 is the first 8
bytes starting at the frame (crossing into frame 1), not the first
`min(8, page_size) = 4` bytes of the frame's own range, so the claim as
stated fails. -/
theorem claim_C8_counterexample :
    ¬ ∀ fi ∈ (viewMemory (MemoryManager.init 16 4 16)).frames,
        fi.snippet =
          ((MemoryManager.init 16 4 16).physical_memory.drop
            (fi.frame * (MemoryManager.init 16 4 16).page_size)).take
            (min 8 (MemoryManager.init 16 4 16).page_size) := by
  decide

/-- C8 (amended): the sample `view_memory` reports for frame `f` is
`physical_memory[f*page_size : f*page_size + 8]` — the first 8 bytes from
the frame's start, clamped only by the end of physical memory; when
`page_size ≥ 8` this coincides with the first `min(8, page_size)` bytes
of the frame's own byte range, but when `page_size < 8` it extends into
the following frames. -/
theorem claim_C8_amended_snippet (m : MemoryManager) :
    ∀ fi ∈ (viewMemory m).frames,
      fi.snippet = (m.physical_memory.drop (fi.frame * m.page_size)).take 8 ∧
      (8 ≤ m.page_size →
        fi.snippet = (frameContent m fi.frame).take (min 8 m.page_size)) := by
  intro fi hfi
  simp only [viewMemory, List.mem_map] at hfi
  obtain ⟨f, hf, rfl⟩ := hfi
  refine ⟨rfl, fun h8 => ?_⟩
  show (m.physical_memory.drop (f * m.page_size)).take 8 =
    ((m.physical_memory.drop (f * m.page_size)).take m.page_size).take
      (min 8 m.page_size)
  rw [List.take_take]
  congr 1
  omega

/-- Witness for C8 (amended) at frame 0 of a fresh 4-frame manager. -/
theorem claim_C8_witness :
    ({ frame := 0, owner := none, snippet := List.replicate 8 0 } :
        FrameInfo).snippet =
      ((MemoryManager.init 16 4 16).physical_memory.drop
        (0 * (MemoryManager.init 16 4 16).page_size)).take 8 ∧
    (8 ≤ (MemoryManager.init 16 4 16).page_size →
      ({ frame := 0, owner := none, snippet := List.replicate 8 0 } :
          FrameInfo).snippet =
        (frameContent (MemoryManager.init 16 4 16) 0).take
          (min 8 (MemoryManager.init 16 4 16).page_size)) :=
  claim_C8_amended_snippet (MemoryManager.init 16 4 16)
    { frame := 0, owner := none, snippet := List.replicate 8 0 } (by decide)

/-- C9: `view_memory` and `view_page_table` return the state unchanged,
and repeated calls with no intervening `create_process`, in either order,
produce identical reports. -/
theorem claim_C9_views_pure (m : MemoryManager) (pid : Int) :
    (viewMemoryStep m).1 = m ∧
    (viewPageTableStep m pid).1 = m ∧
    (viewMemoryStep ((viewMemoryStep m).1)).2 = (viewMemoryStep m).2 ∧
    (viewPageTableStep ((viewPageTableStep m pid).1) pid).2 =
      (viewPageTableStep m pid).2 ∧
    (viewMemoryStep ((viewPageTableStep m pid).1)).2 = (viewMemoryStep m).2 ∧
    (viewPageTableStep ((viewMemoryStep m).1) pid).2 =
      (viewPageTableStep m pid).2 :=
  ⟨rfl, rfl, rfl, rfl, rfl, rfl⟩

/-- C10: in every reachable state (constructed with
`0 < page_size ≤ physical_size`), `total_frames = physical_size / page_size`
is at least 1, and thus the divisor of the free-fraction computed by
`view_memory` is nonzero. -/
theorem claim_C10_no_div_by_zero (m : MemoryManager) (h : Reachable m) :
    m.total_frames = m.physical_size / m.page_size ∧
    1 ≤ m.total_frames ∧
    ((m.total_frames : Rat) ≠ 0) ∧
    (viewMemory m).free_perc =
      ((m.free_frames.length : Rat) / (m.total_frames : Rat)) * 100 := by
  obtain ⟨hps, hle, htf, _, _, _, _⟩ := reachable_inv m h
  have h1 : 1 ≤ m.total_frames := by
    rw [htf]
    exact (Nat.one_le_div_iff hps).mpr hle
  refine ⟨htf, h1, ?_, rfl⟩
  exact_mod_cast Nat.one_le_iff_ne_zero.mp h1

/-- Witness for C10 on a fresh 16-byte, 4-byte-page manager. -/
theorem claim_C10_witness :
    (MemoryManager.init 16 4 8).total_frames =
      (MemoryManager.init 16 4 8).physical_size /
        (MemoryManager.init 16 4 8).page_size ∧
    1 ≤ (MemoryManager.init 16 4 8).total_frames ∧
    (((MemoryManager.init 16 4 8).total_frames : Rat) ≠ 0) ∧
    (viewMemory (MemoryManager.init 16 4 8)).free_perc =
      (((MemoryManager.init 16 4 8).free_frames.length : Rat) /
        ((MemoryManager.init 16 4 8).total_frames : Rat)) * 100 :=
  claim_C10_no_div_by_zero (MemoryManager.init 16 4 8)
    (Reachable.init 16 4 8 (by decide) (by decide))

end Trab2SO
